import Mathlib

/-!
Shallow embedding of the referrals pallet (src/pallets/referrals/src/lib.rs)
of the hydration-node repository, together with proofs about its claims.

Machine integers (`u128` balances, `u64` weight components) are modelled as
`Nat` with explicit saturation at `2^128 - 1` (resp. `2^64 - 1`) exactly where
the source uses saturating arithmetic; checked arithmetic is modelled with
`Option`.  Storage maps with a `ValueQuery` default of zero whose global sum
matters (`ReferrerShares`, `TraderShares`) are modelled as finitely supported
maps (`SMap`); other storage maps are modelled as plain functions updated
pointwise.  External capabilities (`Currency`, `Convert`, `PriceProvider`,
runtime constants) are collected in an environment record `Env`.  Extrinsics
are transactional in Substrate: dispatch wrappers keep the pre-state on error.
-/

namespace Referrals

/-- Largest value representable in `u128`. -/
def U128MAX : Nat := 2 ^ 128 - 1

/-- Largest value representable in `u64` (weight components are `u64`). -/
def U64MAX : Nat := 2 ^ 64 - 1

/-- Model of `u128::saturating_add`. -/
def satAdd (a b : Nat) : Nat := min (a + b) U128MAX

/-- Model of `u128::checked_add`. -/
def checkedAdd (a b : Nat) : Option Nat :=
  if a + b ≤ U128MAX then some (a + b) else none

/-- Saturation at the `u64` bound for weight arithmetic. -/
def sat64 (n : Nat) : Nat := min n U64MAX

/-- Referrer level, from the `Level` enum of the source.
`Level::default()` is `Tier0` (the `#[default]` attribute sits on `Tier0`). -/
inductive Level where
  | None
  | Tier0
  | Tier1
  | Tier2
  | Tier3
  | Tier4
deriving DecidableEq, Repr

/-- Source `Level::next_level`. -/
def Level.next_level : Level → Level
  | .Tier0 => .Tier1
  | .Tier1 => .Tier2
  | .Tier2 => .Tier3
  | .Tier3 => .Tier4
  | .Tier4 => .Tier4
  | .None => .None

/-- Source `Level::is_max_level`. -/
def Level.is_max_level (l : Level) : Bool := l = Level.Tier4

/-- Fee distribution percentages, from the `FeeDistribution` struct.
`Permill` values are modelled by their parts-per-million numerators;
the field `external` of the source is named `extPct` here. -/
structure FeeDistribution where
  referrer : Nat
  trader : Nat
  extPct : Nat
deriving DecidableEq, Repr

/-- Model of `Permill::mul_floor` on a `u128`: `parts * amount / 10^6`,
floor-rounded, computed without intermediate overflow in the source. -/
def mulFloor (parts amount : Nat) : Nat := parts * amount / 1000000

/-- Model of `Permill::checked_add`: fails when the sum exceeds 100%. -/
def permillCheckedAdd (a b : Nat) : Option Nat :=
  if a + b ≤ 1000000 then some (a + b) else none

/-- Model of `sp_runtime::helpers_128bit::multiply_by_rational_with_rounding`
with `Rounding::Down`: `a * b / c` with a 256-bit intermediate; `none` when
the divisor is zero or the quotient does not fit in `u128`. -/
def mulByRationalDown (a b c : Nat) : Option Nat :=
  if c = 0 then none
  else if a * b / c ≤ U128MAX then some (a * b / c) else none

/-- Errors of the pallet's `Error<T>` enum. -/
inductive PalletError where
  | TooLong
  | TooShort
  | InvalidCharacter
  | AlreadyExists
  | InvalidCode
  | AlreadyLinked
  | ZeroAmount
  | LinkNotAllowed
  | IncorrectRewardCalculation
  | IncorrectRewardPercentage
  | AlreadyRegistered
  | PriceNotFound
  | ConversionMinTradingAmountNotReached
  | ConversionZeroAmountReceived
deriving DecidableEq, Repr

/-- Model of `DispatchError`: a pallet module error, an arithmetic overflow
(`ArithmeticError::Overflow`), or an opaque error raised by an external
capability (transfer or conversion backend), tagged by a number. -/
inductive DispatchError where
  | module (e : PalletError)
  | arithmeticOverflow
  | token (n : Nat)
deriving DecidableEq, Repr

/-- Source `AssetAmount` struct. -/
structure AssetAmount where
  asset_id : Nat
  amount : Nat
deriving DecidableEq, Repr

/-- Events of the pallet's `Event<T>` enum. -/
inductive Event where
  | codeRegistered (code : List Nat) (account : Nat)
  | codeLinked (account : Nat) (code : List Nat) (referralAccount : Nat)
  | converted (src : AssetAmount) (dst : AssetAmount)
  | claimed (who : Nat) (referrerRewards : Nat) (tradeRewards : Nat)
  | assetRewardsUpdated (asset_id : Nat) (level : Level) (rewards : FeeDistribution)
  | levelUp (who : Nat) (level : Level)
deriving DecidableEq, Repr

/-- Weight with its two `u64` components, as in Substrate's `Weight`. -/
structure Weight where
  refTime : Nat
  proofSize : Nat
deriving DecidableEq, Repr

/-- Weight `saturating_sub` (componentwise; `Nat` subtraction saturates at 0). -/
def Weight.satSub (w v : Weight) : Weight :=
  ⟨w.refTime - v.refTime, w.proofSize - v.proofSize⟩

/-- Weight `saturating_add` (componentwise, saturating at the `u64` bound). -/
def Weight.satAdd (w v : Weight) : Weight :=
  ⟨sat64 (w.refTime + v.refTime), sat64 (w.proofSize + v.proofSize)⟩

/-- Weight `saturating_mul` by a scalar. -/
def Weight.satMulScalar (w : Weight) (k : Nat) : Weight :=
  ⟨sat64 (w.refTime * k), sat64 (w.proofSize * k)⟩

/-- Weight `is_zero`: both components zero. -/
def Weight.isZero (w : Weight) : Bool := w.refTime = 0 ∧ w.proofSize = 0

/-- Weight `zero`. -/
def Weight.zero : Weight := ⟨0, 0⟩

/-- Finitely supported map from accounts to balances, modelling a storage map
with `ValueQuery` default 0 whose sum over all accounts is meaningful. -/
structure SMap where
  dom : Finset Nat
  f : Nat → Nat
  supp : ∀ a, a ∉ dom → f a = 0

/-- Storage-map read (`ValueQuery`: absent keys read as 0).
The result type is spelled `Nat` (definitionally `Nat`). -/
def SMap.get (m : SMap) (k : Nat) : Nat := m.f k

/-- Storage-map write. -/
def SMap.set (m : SMap) (k : Nat) (v : Nat) : SMap where
  dom := insert k m.dom
  f := fun a => if a = k then v else m.f a
  supp := by
    intro a ha
    have hk : a ≠ k := fun h => ha (h ▸ Finset.mem_insert_self k m.dom)
    have hm : a ∉ m.dom := fun h => ha (Finset.mem_insert_of_mem h)
    simp [hk, m.supp a hm]

/-- Sum of all values of the map (result type spelled `Nat`). -/
def SMap.sum (m : SMap) : Nat := ∑ a ∈ m.dom, m.f a

/-- The empty map. -/
def SMap.empty : SMap := ⟨∅, fun _ => 0, fun _ _ => rfl⟩

/-- Environment: runtime configuration constants and external capabilities
(`PriceProvider`, the conversion backend behind `T::Convert`, weights). -/
structure Env where
  rewardAsset : Nat
  potAccount : Nat
  seedNativeAmount : Nat
  registrationFeeAsset : Nat
  registrationFeeAmount : Nat
  registrationFeeBeneficiary : Nat
  minCodeLength : Nat
  codeLength : Nat
  levelVolumeAndRewardPercentages : Level → Nat × FeeDistribution
  extAccount : Option Nat
  getPrice : Nat → Nat → Option (Nat × Nat)
  convertResult : Nat → Nat → Except DispatchError Nat
  convertWeight : Weight
  dbOneRead : Weight

/-- Complete pallet state: the storage items of the pallet, the balances held
by the underlying currency ledger, and the events deposited so far. -/
structure State where
  referralCodes : List Nat → Option Nat
  referralAccounts : Nat → Option (List Nat)
  linkedAccounts : Nat → Option Nat
  referrerShares : SMap
  traderShares : SMap
  totalShares : Nat
  referrer : Nat → Option (Level × Nat)
  assetRewards : Nat → Level → Option FeeDistribution
  pendingConversions : List Nat
  balances : Nat → Nat → Nat
  events : List Event

/-- Pointwise balance update. -/
def setBal (b : Nat → Nat → Nat) (asset : Nat) (acc : Nat)
    (v : Nat) : Nat → Nat → Nat :=
  fun a x => if a = asset ∧ x = acc then v else b a x

/-- Model of the `Transfer` capability: debits `src` and credits `dst`;
fails (with an opaque error) when `src` lacks the funds.  The `keepAlive`
flag belongs to the out-of-scope currency ledger and carries no semantics
in this model. -/
def transfer (s : State) (asset : Nat) (src dst : Nat) (amount : Nat)
    (_keepAlive : Bool) : Except DispatchError State :=
  if amount ≤ s.balances asset src then
    let b1 := setBal s.balances asset src (s.balances asset src - amount)
    let b2 := setBal b1 asset dst (satAdd (b1 asset dst) amount)
    .ok { s with balances := b2 }
  else .error (.token 0)

/-- Nat effect of a successful external conversion: the pot's `asset`
balance is spent and `out` units of the reward asset are credited to the pot. -/
def applyConvert (env : Env) (s : State) (asset : Nat) (amountIn out : Nat) : State :=
  let b1 := setBal s.balances asset env.potAccount (s.balances asset env.potAccount - amountIn)
  let b2 := setBal b1 env.rewardAsset env.potAccount (satAdd (b1 env.rewardAsset env.potAccount) out)
  { s with balances := b2 }

/-- Removal from the pending-conversions storage map. -/
def removePending (l : List Nat) (a : Nat) : List Nat :=
  l.filter (fun x => decide (x ≠ a))

/-- Insertion into the pending-conversions storage map (idempotent). -/
def pendingInsert (l : List Nat) (a : Nat) : List Nat :=
  if a ∈ l then l else l ++ [a]

/-- Model of `u8::to_ascii_uppercase`. -/
def asciiUpper (b : Nat) : Nat := if 97 ≤ b ∧ b ≤ 122 then b - 32 else b

/-- Model of Rust `char::is_alphanumeric` applied to a byte cast to `char`
(so to a Unicode scalar in U+0000..U+00FF): ASCII digits and letters plus the
Latin-1 alphanumerics (feminine/masculine ordinals, superscripts, micro sign,
vulgar fractions, and the accented letters, excluding the multiplication and
division signs). -/
def isAlphanumericByte (b : Nat) : Bool :=
  (48 ≤ b ∧ b ≤ 57) ∨ (65 ≤ b ∧ b ≤ 90) ∨ (97 ≤ b ∧ b ≤ 122) ∨
  b = 170 ∨ b = 178 ∨ b = 179 ∨ b = 181 ∨ b = 185 ∨ b = 186 ∨
  (188 ≤ b ∧ b ≤ 190) ∨ (192 ≤ b ∧ b ≤ 214) ∨ (216 ≤ b ∧ b ≤ 246) ∨
  (248 ≤ b ∧ b ≤ 255)

/-- Source `Pallet::normalize_code`: upper-case every byte, then
`BoundedVec::truncate_from` bounds the length by `CodeLength`. -/
def normalize_code (env : Env) (code : List Nat) : List Nat :=
  (code.map asciiUpper).take env.codeLength

/-- Source extrinsic `register_code`. -/
def register_code (env : Env) (who : Nat) (code : List Nat) (s : State) :
    Except DispatchError State :=
  if (s.referralAccounts who).isSome then .error (.module .AlreadyRegistered)
  else if code.length < env.minCodeLength then .error (.module .TooShort)
  else if ¬ code.all isAlphanumericByte then .error (.module .InvalidCharacter)
  else
    let ncode := normalize_code env code
    match s.referralCodes ncode with
    | some _ => .error (.module .AlreadyExists)
    | none =>
      match transfer s env.registrationFeeAsset who env.registrationFeeBeneficiary
          env.registrationFeeAmount true with
      | .error e => .error e
      | .ok s1 =>
        .ok { s1 with
          referralCodes := fun c => if c = ncode then some who else s1.referralCodes c,
          referrer := fun a => if a = who then some (Level.Tier0, 0) else s1.referrer a,
          referralAccounts := fun a => if a = who then some ncode else s1.referralAccounts a,
          events := s1.events ++ [.codeRegistered ncode who] }

/-- Source extrinsic `link_code`. -/
def link_code (env : Env) (who : Nat) (code : List Nat) (s : State) :
    Except DispatchError State :=
  let ncode := normalize_code env code
  match s.referralCodes ncode with
  | none => .error (.module .InvalidCode)
  | some refAccount =>
    if (s.linkedAccounts who).isSome then .error (.module .AlreadyLinked)
    else if who = refAccount then .error (.module .LinkNotAllowed)
    else .ok { s with
      linkedAccounts := fun a => if a = who then some refAccount else s.linkedAccounts a,
      events := s.events ++ [.codeLinked who ncode refAccount] }

/-- Source extrinsic `convert`. -/
def convert (env : Env) (asset_id : Nat) (s : State) : Except DispatchError State :=
  let assetBalance := s.balances asset_id env.potAccount
  if assetBalance = 0 then .error (.module .ZeroAmount)
  else
    match env.convertResult asset_id assetBalance with
    | .error e => .error e
    | .ok totalRewardAsset =>
      let s1 := applyConvert env s asset_id assetBalance totalRewardAsset
      let p := removePending s1.pendingConversions asset_id
      let ev := s1.events ++ [.converted ⟨asset_id, assetBalance⟩ ⟨env.rewardAsset, totalRewardAsset⟩]
      .ok { s1 with pendingConversions := p, events := ev }

/-- Negligible-amount conversion errors tolerated by the claim-triggered drain. -/
def isNegligible (e : DispatchError) : Bool :=
  e = DispatchError.module .ConversionMinTradingAmountNotReached ∨
  e = DispatchError.module .ConversionZeroAmountReceived

/-- The claim-triggered drain loop of `claim_rewards`, iterating over the
snapshot of the pending-conversions keys: a negligible-amount conversion error
is skipped, any other conversion error aborts, a successful conversion removes
the asset from the pending set. -/
def drainList (env : Env) : List Nat → State → Except DispatchError State
  | [], s => .ok s
  | a :: rest, s =>
    let b := s.balances a env.potAccount
    match env.convertResult a b with
    | .error e =>
      if isNegligible e then drainList env rest s else .error e
    | .ok out =>
      let s1 := applyConvert env s a b out
      drainList env rest { s1 with pendingConversions := removePending s1.pendingConversions a }

/-- The full claim-triggered drain over the current pending set. -/
def drainPending (env : Env) (s : State) : Except DispatchError State :=
  drainList env s.pendingConversions s

/-- Model of the `convert_shares` closure of `claim_rewards`:
`shares * reward_reserve / share_issuance` in `U256`; `checked_div` fails on a
zero issuance and the `u128` conversion fails above the `u128` bound. -/
def convertShares (toConvert rewardReserve shareIssuance : Nat) : Option Nat :=
  if shareIssuance = 0 then none
  else if toConvert * rewardReserve / shareIssuance ≤ U128MAX then
    some (toConvert * rewardReserve / shareIssuance)
  else none

/-- Source `Level::increase`, a self-recursive method: while not at the
ceiling and the next tier's required volume is met, advance to the next level
and recurse.  The recursion of the source is not structurally terminating
(`Level::None` recurses to itself when the threshold is met), so it is
modelled with fuel; `none` marks fuel exhaustion, i.e. divergence of the
source.  For levels `Tier0`..`Tier4` (the only levels ever stored) at most
four recursive calls happen, so fuel 5 is always enough. -/
def Level.increase (env : Env) : Nat → Level → Nat → Option Level
  | fuel, l, amount =>
    if l.is_max_level then some l
    else
      let next := l.next_level
      let required := (env.levelVolumeAndRewardPercentages next).1
      if required ≤ amount then
        match fuel with
        | 0 => none
        | f + 1 => Level.increase env f next amount
      else some l

/-- The `Referrer::mutate` block of `claim_rewards`: accumulate the referrer
portion of the payout and advance the level, emitting `LevelUp` only on an
actual change.  `Level::increase` is modelled with fuel (see its definition);
fuel 5 suffices for every level reachable in storage. -/
def updateReferrer (env : Env) (who : Nat) (referrerRewards : Nat) (s : State) :
    State :=
  match s.referrer who with
  | none => s
  | some (level, total) =>
    let total' := satAdd total referrerRewards
    let newLevel := (Level.increase env 5 level total').getD level
    if level ≠ newLevel then
      { s with
        referrer := fun a => if a = who then some (newLevel, total') else s.referrer a,
        events := s.events ++ [.levelUp who newLevel] }
    else
      { s with
        referrer := fun a => if a = who then some (level, total') else s.referrer a }

/-- The part of `claim_rewards` after the claim-triggered drain: snapshot and
zero the claimant's shares, early-return on zero, compute the payouts over the
distributable reserve, transfer, burn the shares from the total, update the
referrer record, and emit `Claimed`. -/
def claimCore (env : Env) (who : Nat) (s0 : State) : Except DispatchError State :=
  let referrerShares := s0.referrerShares.get who
  let s1 := { s0 with referrerShares := s0.referrerShares.set who 0 }
  let traderShares := s1.traderShares.get who
  let s2 := { s1 with traderShares := s1.traderShares.set who 0 }
  let totalShares := satAdd referrerShares traderShares
  if totalShares = 0 then .ok s2
  else
    let rewardReserve := s2.balances env.rewardAsset env.potAccount - env.seedNativeAmount
    let shareIssuance := s2.totalShares
    match convertShares referrerShares rewardReserve shareIssuance with
    | none => .error .arithmeticOverflow
    | some referrerRewards =>
      match convertShares traderShares rewardReserve shareIssuance with
      | none => .error .arithmeticOverflow
      | some traderRewards =>
        match checkedAdd referrerRewards traderRewards with
        | none => .error .arithmeticOverflow
        | some totalRewards =>
          if totalRewards ≤ rewardReserve then
            let keepPotAlive := totalShares ≠ shareIssuance
            match transfer s2 env.rewardAsset env.potAccount who totalRewards keepPotAlive with
            | .error e => .error e
            | .ok s3 =>
              let s4 := { s3 with totalShares := s3.totalShares - totalShares }
              let s5 := updateReferrer env who referrerRewards s4
              .ok { s5 with events := s5.events ++ [.claimed who referrerRewards traderRewards] }
          else .error (.module .IncorrectRewardCalculation)

/-- Source extrinsic `claim_rewards`: the claim-triggered drain followed by
the settlement steps. -/
def claim_rewards (env : Env) (who : Nat) (s : State) : Except DispatchError State :=
  match drainPending env s with
  | .error e => .error e
  | .ok s0 => claimCore env who s0

/-- Source extrinsic `set_reward_percentage` (the environment plays no role:
the check is pure `Permill` arithmetic over the submitted percentages). -/
def set_reward_percentage (_env : Env) (asset_id : Nat) (level : Level)
    (rewards : FeeDistribution) (s : State) : Except DispatchError State :=
  match permillCheckedAdd rewards.referrer rewards.trader with
  | none => .error (.module .IncorrectRewardPercentage)
  | some rt =>
    match permillCheckedAdd rt rewards.extPct with
    | none => .error (.module .IncorrectRewardPercentage)
    | some _ =>
      let ar := fun a l => if a = asset_id ∧ l = level then some rewards else s.assetRewards a l
      let ev := s.events ++ [.assetRewardsUpdated asset_id level rewards]
      .ok { s with assetRewards := ar, events := ev }

/-- Credit of the freshly minted shares, mirroring the sequence of
`TotalShares::mutate`, `ReferrerShares::mutate`, `TraderShares::mutate` (for
the trader and then for the external account) in `process_trade_fee`. -/
def mintShares (s : State) (refAccount : Option Nat) (trader : Nat)
    (extAcc : Option Nat) (referrerShares traderShares extShares : Nat) : State :=
  let minted := satAdd (satAdd referrerShares traderShares) extShares
  let s2 := { s with totalShares := satAdd s.totalShares minted }
  let s3 := match refAccount with
    | some acc =>
      let m := s2.referrerShares.set acc (satAdd (s2.referrerShares.get acc) referrerShares)
      { s2 with referrerShares := m }
    | none => s2
  let m4 := s3.traderShares.set trader (satAdd (s3.traderShares.get trader) traderShares)
  let s4 := { s3 with traderShares := m4 }
  match extAcc with
  | some acc =>
    let m5 := s4.traderShares.set acc (satAdd (s4.traderShares.get acc) extShares)
    { s4 with traderShares := m5 }
  | none => s4

/-- The guarded reward cut of `process_trade_fee`: the referrer (resp.
external) percentage is applied only when a referrer account (resp. external
account) exists, otherwise the cut is zero. -/
def guardedReward (guard : Option Nat) (parts amount : Nat) : Nat :=
  if guard.isSome then mulFloor parts amount else 0

/-- The guarded share conversion of `process_trade_fee`: the wide
multiplication by the price ratio runs only when the corresponding account
exists, otherwise the shares are zero. -/
def guardedShares (guard : Option Nat) (reward n d : Nat) : Option Nat :=
  if guard.isSome then mulByRationalDown reward n d else some 0

/-- The reward-math path of `process_trade_fee`, after the price has been
found and the trader's referrer and level resolved: compute the three reward
cuts, take the fee into the pot, convert each cut into shares via the price
ratio, credit the shares and record the pending conversion. -/
def ptfCore (env : Env) (source trader : Nat) (asset_id : Nat)
    (amount : Nat) (price : Nat × Nat) (level : Level)
    (refAccount : Option Nat) (s : State) : Except DispatchError (Nat × State) :=
  let rewards := (s.assetRewards asset_id level).getD
    (env.levelVolumeAndRewardPercentages level).2
  let extAcc := env.extAccount
  let referrerReward := guardedReward refAccount rewards.referrer amount
  let traderReward := mulFloor rewards.trader amount
  let extReward := guardedReward extAcc rewards.extPct amount
  let totalTaken := satAdd (satAdd referrerReward traderReward) extReward
  if totalTaken ≤ amount then
    match transfer s asset_id source env.potAccount totalTaken true with
    | .error e => .error e
    | .ok s1 =>
      match guardedShares refAccount referrerReward price.1 price.2 with
      | none => .error .arithmeticOverflow
      | some referrerShares =>
        match mulByRationalDown traderReward price.1 price.2 with
        | none => .error .arithmeticOverflow
        | some traderShares =>
          match guardedShares extAcc extReward price.1 price.2 with
          | none => .error .arithmeticOverflow
          | some extShares =>
            let s5 := mintShares s1 refAccount trader extAcc
              referrerShares traderShares extShares
            let s6 := if asset_id ≠ env.rewardAsset then
                { s5 with pendingConversions := pendingInsert s5.pendingConversions asset_id }
              else s5
            .ok (totalTaken, s6)
  else .error (.module .IncorrectRewardCalculation)

/-- Source `Pallet::process_trade_fee` (a `#[transactional]` helper): silently
return zero when no price exists; resolve the linked referrer and its level
(the defensive missing-record branch also returns zero); then run the reward
math of `ptfCore`. -/
def process_trade_fee (env : Env) (source trader : Nat) (asset_id : Nat)
    (amount : Nat) (s : State) : Except DispatchError (Nat × State) :=
  match env.getPrice env.rewardAsset asset_id with
  | none => .ok (0, s)
  | some price =>
    let lr : Option (Level × Option Nat) :=
      match s.linkedAccounts trader with
      | some acc =>
        match s.referrer acc with
        | some (level, _) => some (level, some acc)
        | none => none
      | none => some (Level.None, none)
    match lr with
    | none => .ok (0, s)
    | some (level, refAccount) =>
      ptfCore env source trader asset_id amount price level refAccount s

/-- The on-idle drain loop body over the snapshot of at most `max_converts`
pending keys: a successful conversion removes the asset, failures are
swallowed and leave it pending. -/
def onIdleLoop (env : Env) : List Nat → State → State
  | [], s => s
  | a :: rest, s =>
    let b := s.balances a env.potAccount
    match env.convertResult a b with
    | .ok out =>
      let s1 := applyConvert env s a b out
      onIdleLoop env rest { s1 with pendingConversions := removePending s1.pendingConversions a }
    | .error _ => onIdleLoop env rest s

/-- Source hook `on_idle`: computes how many conversions fit in the remaining
weight, runs the bounded drain, and returns the consumed weight.  In the
source the division is on the `u64` ref-time components; a zero per-conversion
weight short-circuits to `Weight::zero()`. -/
def on_idle (env : Env) (remainingWeight : Weight) (s : State) : State × Weight :=
  let convertWeight := env.convertWeight
  if convertWeight.isZero then (s, Weight.zero)
  else
    let oneRead := env.dbOneRead
    let maxConverts := (remainingWeight.satSub oneRead).refTime / convertWeight.refTime
    let s' := onIdleLoop env (s.pendingConversions.take maxConverts) s
    (s', (convertWeight.satMulScalar maxConverts).satAdd oneRead)

/-- The public operations of the pallet, for stating state-machine properties. -/
inductive Op where
  | processTradeFeeOp (source trader : Nat) (asset_id : Nat) (amount : Nat)
  | claimRewardsOp (who : Nat)
  | convertOp (asset_id : Nat)
  | onIdleOp (remainingWeight : Weight)
  | registerCodeOp (who : Nat) (code : List Nat)
  | linkCodeOp (who : Nat) (code : List Nat)
  | setRewardPercentageOp (asset_id : Nat) (level : Level) (rewards : FeeDistribution)

/-- Transactional dispatch: every extrinsic either commits its new state or
fails leaving the state unchanged (`on_idle` never fails). -/
def applyOp (env : Env) (op : Op) (s : State) : State :=
  match op with
  | .processTradeFeeOp src tr a m =>
    match process_trade_fee env src tr a m s with
    | .ok (_, s') => s'
    | .error _ => s
  | .claimRewardsOp who =>
    match claim_rewards env who s with
    | .ok s' => s'
    | .error _ => s
  | .convertOp a =>
    match convert env a s with
    | .ok s' => s'
    | .error _ => s
  | .onIdleOp w => (on_idle env w s).1
  | .registerCodeOp who code =>
    match register_code env who code s with
    | .ok s' => s'
    | .error _ => s
  | .linkCodeOp who code =>
    match link_code env who code s with
    | .ok s' => s'
    | .error _ => s
  | .setRewardPercentageOp a l r =>
    match set_reward_percentage env a l r s with
    | .ok s' => s'
    | .error _ => s

/-- Transactional view of `claim_rewards` that also reports the error. -/
def claimRewardsCall (env : Env) (who : Nat) (s : State) : State × Option DispatchError :=
  match claim_rewards env who s with
  | .ok s' => (s', none)
  | .error e => (s, some e)

/-- Transactional view of `convert` that also reports the error. -/
def convertCall (env : Env) (asset_id : Nat) (s : State) : State × Option DispatchError :=
  match convert env asset_id s with
  | .ok s' => (s', none)
  | .error e => (s, some e)

/-- The shares-ledger invariant of the spec:
`total_shares = Σ referrer_shares + Σ trader_shares`. -/
def Inv (s : State) : Prop :=
  s.totalShares = s.referrerShares.sum + s.traderShares.sum

instance (s : State) : Decidable (Inv s) := by
  unfold Inv; infer_instance

/-- Well-formedness of a `u128` storage value: the total-shares counter fits. -/
def WFtotal (s : State) : Prop := s.totalShares ≤ U128MAX

instance (s : State) : Decidable (WFtotal s) := by
  unfold WFtotal; infer_instance

/-- No-saturation side condition for the amended invariant claim: for the
share-minting operation the updated counter must stay below the `u128` cap;
all other operations need no condition. -/
def NoSatOp (env : Env) (op : Op) (s : State) : Prop :=
  match op with
  | .processTradeFeeOp _ _ _ _ => (applyOp env op s).totalShares < U128MAX
  | _ => True

instance (env : Env) (op : Op) (s : State) : Decidable (NoSatOp env op s) :=
  match op with
  | .processTradeFeeOp source trader asset_id amount =>
    inferInstanceAs (Decidable
      ((applyOp env (.processTradeFeeOp source trader asset_id amount) s).totalShares < U128MAX))
  | .claimRewardsOp _ => inferInstanceAs (Decidable True)
  | .convertOp _ => inferInstanceAs (Decidable True)
  | .onIdleOp _ => inferInstanceAs (Decidable True)
  | .registerCodeOp _ _ => inferInstanceAs (Decidable True)
  | .linkCodeOp _ _ => inferInstanceAs (Decidable True)
  | .setRewardPercentageOp _ _ _ => inferInstanceAs (Decidable True)

/-- Discriminator for successful dispatch results. -/
def isOkE {α : Type} : Except DispatchError α → Bool
  | .ok _ => true
  | .error _ => false

/-- The committed state of a state-valued dispatch result (default on error). -/
def okStateD (r : Except DispatchError State) (dflt : State) : State :=
  match r with
  | .ok s => s
  | .error _ => dflt

/-- The committed state of `process_trade_fee` (default on error). -/
def okPairD (r : Except DispatchError (Nat × State)) (dflt : State) : State :=
  match r with
  | .ok (_, s) => s
  | .error _ => dflt

/-- Agreement of two states on the whole shares ledger. -/
def SharesEq (s' s : State) : Prop :=
  s'.referrerShares = s.referrerShares ∧ s'.traderShares = s.traderShares ∧
  s'.totalShares = s.totalShares

/-- The all-empty state: no codes, no links, no shares, no balances. -/
def zeroState : State where
  referralCodes := fun _ => none
  referralAccounts := fun _ => none
  linkedAccounts := fun _ => none
  referrerShares := SMap.empty
  traderShares := SMap.empty
  totalShares := 0
  referrer := fun _ => none
  assetRewards := fun _ _ => none
  pendingConversions := []
  balances := fun _ _ => 0
  events := []

/-- A concrete baseline environment used by witnesses and counterexamples:
reward asset 0, pot account 100, a 1:1 price for every pair, a global
fee distribution giving 100% to the trader, and a conversion backend that
always fails with an opaque error. -/
def baseEnv : Env where
  rewardAsset := 0
  potAccount := 100
  seedNativeAmount := 0
  registrationFeeAsset := 0
  registrationFeeAmount := 5
  registrationFeeBeneficiary := 99
  minCodeLength := 2
  codeLength := 7
  levelVolumeAndRewardPercentages := fun _ => (0, ⟨0, 1000000, 0⟩)
  extAccount := none
  getPrice := fun _ _ => some (1, 1)
  convertResult := fun _ _ => .error (.token 5)
  convertWeight := ⟨10, 0⟩
  dbOneRead := ⟨25, 0⟩

/-- Starting state for the invariant counterexample: two trading sources
(50 and 51) each hold `2^127` units of asset 5; the shares ledger is empty. -/
def s0C1 : State :=
  { zeroState with
    balances := fun a acc => if a = 5 ∧ (acc = 50 ∨ acc = 51) then 2 ^ 127 else 0 }

/-- State after a first huge trade fee (trader 60, `2^127` of asset 5). -/
def tradeA : State := applyOp baseEnv (.processTradeFeeOp 50 60 5 (2 ^ 127)) s0C1

/-- State after a second huge trade fee (trader 61): the total-shares counter
saturates while the individual balances do not. -/
def tradeB : State := applyOp baseEnv (.processTradeFeeOp 51 61 5 (2 ^ 127)) tradeA

/-- Claim-payout witness state: claimant 1 holds 100 referrer shares out of a
total issuance of 100, and the pot holds 1000 units of the reward asset. -/
def sW2 : State :=
  { zeroState with
    referrerShares := SMap.empty.set 1 100
    totalShares := 100
    balances := fun a acc => if a = 0 ∧ acc = 100 then 1000 else 0 }

/-- Result state of the witness claim. -/
def claimResW2 : State := okStateD (claim_rewards baseEnv 1 sW2) sW2

/-- Environment whose conversion backend always reports the negligible
minimum-trading-amount error. -/
def envC3 : Env :=
  { baseEnv with convertResult := fun _ _ => .error (.module .ConversionMinTradingAmountNotReached) }

/-- State with one pending conversion (asset 4). -/
def sC3 : State := { zeroState with pendingConversions := [4] }

/-- Saturated state for the overflow-reporting counterexample: the counter is
already at the `u128` cap, matched by trader 9's balance. -/
def sC4 : State :=
  { zeroState with
    totalShares := U128MAX
    traderShares := SMap.empty.set 9 U128MAX
    balances := fun a acc => if a = 5 ∧ acc = 10 then 1000 else 0 }

/-- Trade-fee dispatch on the saturated state. -/
def ptfC4 : Except DispatchError (Nat × State) := process_trade_fee baseEnv 10 11 5 100 sC4

/-- Committed state of that dispatch. -/
def resC4 : State := okPairD ptfC4 sC4

/-- Environment with a price so large that the share multiplication overflows. -/
def envW4 : Env := { baseEnv with getPrice := fun _ _ => some (U128MAX, 1) }

/-- Witness state for the overflow error: source 10 holds 10 units of asset 5. -/
def sW4 : State :=
  { zeroState with balances := fun a acc => if a = 5 ∧ acc = 10 then 10 else 0 }

/-- State of the overflow witness after the fee transfer of 2 units. -/
def sW4t : State :=
  okStateD (transfer sW4 5 10 baseEnv.potAccount 2 true) sW4

/-- Environment whose conversion backend always fails with a hard error. -/
def envC9 : Env := { baseEnv with convertResult := fun _ _ => .error (.token 9) }

/-- Zero-shares claimant state with one pending conversion that hard-fails. -/
def sC9 : State := { zeroState with pendingConversions := [3] }

/-- Tier thresholds witness environment: Tier1 at 100, Tier2 at 1000,
Tier3 at 100000, Tier4 at 1000000. -/
def env7 : Env :=
  { baseEnv with
    levelVolumeAndRewardPercentages := fun l =>
      (match l with
        | .Tier1 => 100
        | .Tier2 => 1000
        | .Tier3 => 100000
        | .Tier4 => 1000000
        | _ => 0, ⟨0, 0, 0⟩) }

/-- Environment with no price for any pair. -/
def envW8 : Env := { baseEnv with getPrice := fun _ _ => none }

/-- Registration witness state: account 1 can pay the registration fee. -/
def sW10 : State :=
  { zeroState with balances := fun a acc => if a = 0 ∧ acc = 1 then 10 else 0 }

/-- State after registering the lower-case code "ab" (bytes 97, 98) from
account 1. -/
def regResW10 : State := okStateD (register_code baseEnv 1 [97, 98] sW10) sW10

/-! ### Map and saturation lemmas -/

theorem SMap.get_set_self (m : SMap) (k v : Nat) : (m.set k v).get k = v := by
  simp [SMap.get, SMap.set]

theorem SMap.get_set_ne (m : SMap) (k v a : Nat) (h : a ≠ k) :
    (m.set k v).get a = m.get a := by
  simp [SMap.get, SMap.set, h]

theorem SMap.sum_set (m : SMap) (k v : Nat) :
    (m.set k v).sum + m.get k = m.sum + v := by
  classical
  unfold SMap.sum SMap.set SMap.get
  simp only
  have hins : insert k m.dom = insert k (m.dom.erase k) := by
    ext x
    simp only [Finset.mem_insert, Finset.mem_erase]
    constructor
    · intro hx
      rcases hx with hx | hx
      · exact Or.inl hx
      · by_cases hxk : x = k
        · exact Or.inl hxk
        · exact Or.inr ⟨hxk, hx⟩
    · intro hx
      rcases hx with hx | hx
      · exact Or.inl hx
      · exact Or.inr hx.2
  rw [hins, Finset.sum_insert (Finset.not_mem_erase k m.dom)]
  have hcong : ∑ a ∈ m.dom.erase k, (if a = k then v else m.f a)
      = ∑ a ∈ m.dom.erase k, m.f a := by
    refine Finset.sum_congr rfl ?_
    intro x hx
    have hxk : x ≠ k := (Finset.mem_erase.mp hx).1
    simp [hxk]
  rw [if_pos rfl, hcong]
  by_cases hk : k ∈ m.dom
  · have h := Finset.add_sum_erase m.dom m.f hk
    rw [← h]
    ring
  · rw [Finset.erase_eq_of_not_mem hk]
    have h0 : m.f k = 0 := m.supp k hk
    rw [h0]
    ring

theorem SMap.get_le_sum (m : SMap) (k : Nat) : m.get k ≤ m.sum := by
  by_cases hk : k ∈ m.dom
  · exact Finset.single_le_sum (fun i _ => Nat.zero_le (m.f i)) hk
  · simp [SMap.get, m.supp k hk]

theorem satAdd_le (a b : Nat) : satAdd a b ≤ U128MAX := Nat.min_le_right _ _

theorem satAdd_eq_of_le {a b : Nat} (h : a + b ≤ U128MAX) : satAdd a b = a + b :=
  Nat.min_eq_left h

theorem U128MAX_pos : 0 < U128MAX := by decide

theorem satAdd_eq_zero_iff (a b : Nat) : satAdd a b = 0 ↔ a = 0 ∧ b = 0 := by
  rw [satAdd, Nat.min_eq_zero_iff]
  have h := U128MAX_pos
  omega

theorem satAdd_lt_max {a b : Nat} (h : satAdd a b < U128MAX) : satAdd a b = a + b := by
  unfold satAdd at *
  rcases Nat.le_total (a + b) U128MAX with hle | hle
  · exact Nat.min_eq_left hle
  · rw [Nat.min_eq_right hle] at h
    omega

/-! ### Preservation facts for the building blocks -/

theorem Inv_of_sharesEq {s' s : State} (h : SharesEq s' s) (hI : Inv s) : Inv s' := by
  obtain ⟨h1, h2, h3⟩ := h
  unfold Inv at *
  rw [h1, h2, h3, hI]

theorem transfer_ok_fields {s s' : State} {asset : Nat} {src dst : Nat}
    {amount : Nat} {ka : Bool} (h : transfer s asset src dst amount ka = .ok s') :
    SharesEq s' s ∧ s'.events = s.events ∧ s'.pendingConversions = s.pendingConversions ∧
    s'.referrer = s.referrer := by
  unfold transfer at h
  split at h
  · cases h
    exact ⟨⟨rfl, rfl, rfl⟩, rfl, rfl, rfl⟩
  · cases h

theorem transfer_ok_balances_other {s s' : State} {asset : Nat} {src dst : Nat}
    {amount : Nat} {ka : Bool} (h : transfer s asset src dst amount ka = .ok s')
    (a : Nat) (acc : Nat) (h1 : acc ≠ src) (h2 : acc ≠ dst) :
    s'.balances a acc = s.balances a acc := by
  unfold transfer at h
  split at h
  · cases h
    simp [setBal, h1, h2]
  · cases h

theorem applyConvert_fields (env : Env) (s : State) (asset : Nat) (bIn out : Nat) :
    SharesEq (applyConvert env s asset bIn out) s ∧
    (applyConvert env s asset bIn out).events = s.events ∧
    (applyConvert env s asset bIn out).pendingConversions = s.pendingConversions ∧
    (applyConvert env s asset bIn out).referrer = s.referrer := by
  exact ⟨⟨rfl, rfl, rfl⟩, rfl, rfl, rfl⟩

theorem applyConvert_balances_nonpot (env : Env) (s : State) (asset : Nat)
    (bIn out : Nat) (a : Nat) (acc : Nat) (h : acc ≠ env.potAccount) :
    (applyConvert env s asset bIn out).balances a acc = s.balances a acc := by
  simp [applyConvert, setBal, h]

theorem drainList_ok_fields (env : Env) :
    ∀ (l : List Nat) (s s' : State), drainList env l s = .ok s' →
      SharesEq s' s ∧ s'.events = s.events ∧ s'.referrer = s.referrer ∧
      (∀ a acc, acc ≠ env.potAccount → s'.balances a acc = s.balances a acc) := by
  intro l
  induction l with
  | nil =>
    intro s s' h
    cases h
    exact ⟨⟨rfl, rfl, rfl⟩, rfl, rfl, fun _ _ _ => rfl⟩
  | cons a rest ih =>
    intro s s' h
    unfold drainList at h
    simp only at h
    cases hc : env.convertResult a (s.balances a env.potAccount) with
    | error e =>
      simp only [hc] at h
      by_cases hn : isNegligible e
      · rw [if_pos hn] at h
        exact ih s s' h
      · rw [if_neg hn] at h
        cases h
    | ok out =>
      simp only [hc] at h
      obtain ⟨hse, hev, href, hbal⟩ := ih _ _ h
      refine ⟨hse, hev, href, ?_⟩
      intro aa acc hacc
      rw [hbal aa acc hacc]
      exact applyConvert_balances_nonpot env s a _ out aa acc hacc

theorem drainList_pending_mono (env : Env) :
    ∀ (l : List Nat) (s s' : State), drainList env l s = .ok s' →
      ∀ x, x ∈ s.pendingConversions → x ∉ l → x ∈ s'.pendingConversions := by
  intro l
  induction l with
  | nil =>
    intro s s' h x hx _
    cases h
    exact hx
  | cons a rest ih =>
    intro s s' h x hx hnl
    have hxa : x ≠ a := fun he => hnl (he ▸ List.mem_cons_self a rest)
    have hxr : x ∉ rest := fun he => hnl (List.mem_cons_of_mem a he)
    unfold drainList at h
    simp only at h
    cases hc : env.convertResult a (s.balances a env.potAccount) with
    | error e =>
      simp only [hc] at h
      by_cases hn : isNegligible e
      · rw [if_pos hn] at h
        exact ih s s' h x hx hxr
      · rw [if_neg hn] at h
        cases h
    | ok out =>
      simp only [hc] at h
      refine ih _ s' h x ?_ hxr
      simp only [removePending, List.mem_filter, applyConvert]
      exact ⟨hx, by simp [hxa]⟩

theorem onIdleLoop_fields (env : Env) :
    ∀ (l : List Nat) (s : State),
      SharesEq (onIdleLoop env l s) s ∧ (onIdleLoop env l s).events = s.events := by
  intro l
  induction l with
  | nil =>
    intro s
    exact ⟨⟨rfl, rfl, rfl⟩, rfl⟩
  | cons a rest ih =>
    intro s
    unfold onIdleLoop
    simp only
    cases hc : env.convertResult a (s.balances a env.potAccount) with
    | ok out =>
      simp only [hc]
      exact ih _
    | error e =>
      simp only [hc]
      exact ih _

theorem onIdleLoop_pending_mono (env : Env) :
    ∀ (l : List Nat) (s : State), ∀ x, x ∈ s.pendingConversions → x ∉ l →
      x ∈ (onIdleLoop env l s).pendingConversions := by
  intro l
  induction l with
  | nil =>
    intro s x hx _
    exact hx
  | cons a rest ih =>
    intro s x hx hnl
    have hxa : x ≠ a := fun he => hnl (he ▸ List.mem_cons_self a rest)
    have hxr : x ∉ rest := fun he => hnl (List.mem_cons_of_mem a he)
    unfold onIdleLoop
    simp only
    cases hc : env.convertResult a (s.balances a env.potAccount) with
    | ok out =>
      simp only [hc]
      refine ih _ x ?_ hxr
      simp only [removePending, List.mem_filter, applyConvert]
      exact ⟨hx, by simp [hxa]⟩
    | error e =>
      simp only [hc]
      exact ih s x hx hxr

theorem onIdleLoop_removed_success (env : Env) :
    ∀ (l : List Nat) (s : State), ∀ x, x ∈ s.pendingConversions →
      x ∉ (onIdleLoop env l s).pendingConversions →
      ∃ b out, env.convertResult x b = .ok out := by
  intro l
  induction l with
  | nil =>
    intro s x hx hnx
    exact absurd hx hnx
  | cons a rest ih =>
    intro s x hx hnx
    unfold onIdleLoop at hnx
    simp only at hnx
    cases hc : env.convertResult a (s.balances a env.potAccount) with
    | ok out =>
      simp only [hc] at hnx
      by_cases hxa : x = a
      · exact ⟨s.balances a env.potAccount, out, hxa ▸ hc⟩
      · refine ih _ x ?_ hnx
        simp only [removePending, List.mem_filter, applyConvert]
        exact ⟨hx, by simp [hxa]⟩
    | error e =>
      simp only [hc] at hnx
      exact ih s x hx hnx

theorem updateReferrer_fields (env : Env) (who : Nat) (rr : Nat) (s : State) :
    SharesEq (updateReferrer env who rr s) s ∧
    (updateReferrer env who rr s).balances = s.balances ∧
    (updateReferrer env who rr s).pendingConversions = s.pendingConversions := by
  unfold updateReferrer
  cases h : s.referrer who with
  | none => exact ⟨⟨rfl, rfl, rfl⟩, rfl, rfl⟩
  | some p =>
    obtain ⟨lv, tot⟩ := p
    simp only
    split
    · exact ⟨⟨rfl, rfl, rfl⟩, rfl, rfl⟩
    · exact ⟨⟨rfl, rfl, rfl⟩, rfl, rfl⟩

theorem register_code_ok_shares {env : Env} {who : Nat} {code : List Nat}
    {s s' : State} (h : register_code env who code s = .ok s') : SharesEq s' s := by
  unfold register_code at h
  split at h
  · exact Except.noConfusion h
  split at h
  · exact Except.noConfusion h
  split at h
  · exact Except.noConfusion h
  cases hc : s.referralCodes (normalize_code env code) with
  | some acc =>
    simp only [hc] at h
    exact Except.noConfusion h
  | none =>
    simp only [hc] at h
    cases ht : transfer s env.registrationFeeAsset who env.registrationFeeBeneficiary
        env.registrationFeeAmount true with
    | error e =>
      simp only [ht] at h
      exact Except.noConfusion h
    | ok s1 =>
      simp only [ht] at h
      cases h
      obtain ⟨⟨h1, h2, h3⟩, _, _, _⟩ := transfer_ok_fields ht
      exact ⟨h1, h2, h3⟩

theorem link_code_ok_shares {env : Env} {who : Nat} {code : List Nat}
    {s s' : State} (h : link_code env who code s = .ok s') : SharesEq s' s := by
  unfold link_code at h
  cases hc : s.referralCodes (normalize_code env code) with
  | none =>
    simp only [hc] at h
    exact Except.noConfusion h
  | some refAccount =>
    simp only [hc] at h
    split at h
    · exact Except.noConfusion h
    split at h
    · exact Except.noConfusion h
    cases h
    exact ⟨rfl, rfl, rfl⟩

theorem set_reward_percentage_ok_shares {env : Env} {asset_id : Nat} {level : Level}
    {rewards : FeeDistribution} {s s' : State}
    (h : set_reward_percentage env asset_id level rewards s = .ok s') : SharesEq s' s := by
  unfold set_reward_percentage at h
  cases h1 : permillCheckedAdd rewards.referrer rewards.trader with
  | none =>
    simp only [h1] at h
    exact Except.noConfusion h
  | some rt =>
    simp only [h1] at h
    cases h2 : permillCheckedAdd rt rewards.extPct with
    | none =>
      simp only [h2] at h
      exact Except.noConfusion h
    | some q =>
      simp only [h2] at h
      cases h
      exact ⟨rfl, rfl, rfl⟩

theorem convert_ok_shares {env : Env} {asset_id : Nat} {s s' : State}
    (h : convert env asset_id s = .ok s') : SharesEq s' s := by
  unfold convert at h
  simp only at h
  split at h
  · exact Except.noConfusion h
  cases hc : env.convertResult asset_id (s.balances asset_id env.potAccount) with
  | error e =>
    simp only [hc] at h
    exact Except.noConfusion h
  | ok out =>
    simp only [hc] at h
    cases h
    exact ⟨rfl, rfl, rfl⟩

theorem claim_arith (rs ts Sr St T Sr' St' : Nat) (hI : T = Sr + St) (hW : T ≤ U128MAX)
    (h1 : rs ≤ Sr) (h2 : ts ≤ St) (h3 : Sr' + rs = Sr + 0) (h4 : St' + ts = St + 0) :
    T - satAdd rs ts = Sr' + St' := by
  have h5 : satAdd rs ts = rs + ts := satAdd_eq_of_le (by omega)
  omega

theorem zero_arith (T Sr St Sr' St' gr gt : Nat) (hI : T = Sr + St)
    (h3 : Sr' + gr = Sr + 0) (h4 : St' + gt = St + 0) (hr0 : gr = 0) (ht0 : gt = 0) :
    T = Sr' + St' := by
  omega

theorem claimCore_ok_inv {env : Env} {who : Nat} {s0 s' : State}
    (hI : Inv s0) (hW : WFtotal s0) (h : claimCore env who s0 = .ok s') : Inv s' := by
  have hrs := SMap.get_le_sum s0.referrerShares who
  have hts := SMap.get_le_sum s0.traderShares who
  have hsumr := SMap.sum_set s0.referrerShares who 0
  have hsumt := SMap.sum_set s0.traderShares who 0
  simp only [Inv] at hI
  simp only [WFtotal] at hW
  unfold claimCore at h
  simp only at h
  by_cases hz : satAdd (s0.referrerShares.get who) (s0.traderShares.get who) = 0
  · rw [if_pos hz] at h
    cases h
    obtain ⟨hr0, ht0⟩ := (satAdd_eq_zero_iff _ _).mp hz
    simp only [Inv]
    exact zero_arith _ _ _ _ _ _ _ hI hsumr hsumt hr0 ht0
  · rw [if_neg hz] at h
    cases hcr : convertShares (s0.referrerShares.get who)
        (s0.balances env.rewardAsset env.potAccount - env.seedNativeAmount)
        s0.totalShares with
    | none =>
      simp only [hcr] at h
      exact Except.noConfusion h
    | some rr =>
      simp only [hcr] at h
      cases hct : convertShares (s0.traderShares.get who)
          (s0.balances env.rewardAsset env.potAccount - env.seedNativeAmount)
          s0.totalShares with
      | none =>
        simp only [hct] at h
        exact Except.noConfusion h
      | some tt =>
        simp only [hct] at h
        cases hca : checkedAdd rr tt with
        | none =>
          simp only [hca] at h
          exact Except.noConfusion h
        | some tot =>
          simp only [hca] at h
          split at h
          case' _ hle =>
            cases htr : transfer
                { s0 with
                  referrerShares := s0.referrerShares.set who 0,
                  traderShares := s0.traderShares.set who 0 }
                env.rewardAsset env.potAccount who tot
                (satAdd (s0.referrerShares.get who) (s0.traderShares.get who) ≠ s0.totalShares) with
            | error e =>
              simp only [htr] at h
              exact Except.noConfusion h
            | ok s3 =>
              simp only [htr] at h
              cases h
              obtain ⟨⟨hb1, hb2, hb3⟩, _, _, _⟩ := transfer_ok_fields htr
              obtain ⟨⟨hu1, hu2, hu3⟩, _, _⟩ := updateReferrer_fields env who rr
                { s3 with totalShares :=
                  s3.totalShares - satAdd (s0.referrerShares.get who) (s0.traderShares.get who) }
              simp only [Inv]
              rw [hu1, hu2, hu3]
              simp only []
              rw [hb1, hb2, hb3]
              simp only []
              exact claim_arith _ _ _ _ _ _ _ hI hW hrs hts hsumr hsumt
          case' _ => exact Except.noConfusion h

theorem mintShares_inv (s : State) (racc : Option Nat) (tr : Nat)
    (eacc : Option Nat) (sr trs es : Nat) (hI : Inv s)
    (hsr : racc = none → sr = 0) (hes : eacc = none → es = 0)
    (hlt : (mintShares s racc tr eacc sr trs es).totalShares < U128MAX) :
    Inv (mintShares s racc tr eacc sr trs es) := by
  obtain ⟨cr, ca, la, R, T, tot, ref, ar, pc, bal, ev⟩ := s
  simp only [Inv] at hI
  simp only [Inv]
  unfold mintShares at hlt ⊢
  cases racc with
  | none =>
    obtain rfl : sr = 0 := hsr rfl
    cases eacc with
    | none =>
      obtain rfl : es = 0 := hes rfl
      simp only at hlt ⊢
      have e0 : satAdd tot (satAdd (satAdd 0 trs) 0) = tot + satAdd (satAdd 0 trs) 0 :=
        satAdd_lt_max hlt
      rw [e0] at hlt
      have e1 : satAdd (satAdd 0 trs) 0 = satAdd 0 trs + 0 :=
        satAdd_lt_max (show satAdd (satAdd 0 trs) 0 < U128MAX by omega)
      rw [e1] at hlt
      have e2 : satAdd 0 trs = 0 + trs :=
        satAdd_lt_max (show satAdd 0 trs < U128MAX by omega)
      rw [e2] at hlt
      rw [e0, e1, e2]
      have g2 : T.get tr ≤ T.sum := SMap.get_le_sum T tr
      have f2 : satAdd (T.get tr) trs = T.get tr + trs := satAdd_eq_of_le (by omega)
      have s2 := SMap.sum_set T tr (satAdd (T.get tr) trs)
      omega
    | some acc2 =>
      simp only at hlt ⊢
      have e0 : satAdd tot (satAdd (satAdd 0 trs) es) = tot + satAdd (satAdd 0 trs) es :=
        satAdd_lt_max hlt
      rw [e0] at hlt
      have e1 : satAdd (satAdd 0 trs) es = satAdd 0 trs + es :=
        satAdd_lt_max (show satAdd (satAdd 0 trs) es < U128MAX by omega)
      rw [e1] at hlt
      have e2 : satAdd 0 trs = 0 + trs :=
        satAdd_lt_max (show satAdd 0 trs < U128MAX by omega)
      rw [e2] at hlt
      rw [e0, e1, e2]
      have g2 : T.get tr ≤ T.sum := SMap.get_le_sum T tr
      have f2 : satAdd (T.get tr) trs = T.get tr + trs := satAdd_eq_of_le (by omega)
      have s2 := SMap.sum_set T tr (satAdd (T.get tr) trs)
      have g3 : (T.set tr (satAdd (T.get tr) trs)).get acc2 ≤
          (T.set tr (satAdd (T.get tr) trs)).sum :=
        SMap.get_le_sum (T.set tr (satAdd (T.get tr) trs)) acc2
      have f3 : satAdd ((T.set tr (satAdd (T.get tr) trs)).get acc2) es =
          (T.set tr (satAdd (T.get tr) trs)).get acc2 + es := satAdd_eq_of_le (by omega)
      have s3 := SMap.sum_set (T.set tr (satAdd (T.get tr) trs)) acc2
        (satAdd ((T.set tr (satAdd (T.get tr) trs)).get acc2) es)
      omega
  | some acc =>
    cases eacc with
    | none =>
      obtain rfl : es = 0 := hes rfl
      simp only at hlt ⊢
      have e0 : satAdd tot (satAdd (satAdd sr trs) 0) = tot + satAdd (satAdd sr trs) 0 :=
        satAdd_lt_max hlt
      rw [e0] at hlt
      have e1 : satAdd (satAdd sr trs) 0 = satAdd sr trs + 0 :=
        satAdd_lt_max (show satAdd (satAdd sr trs) 0 < U128MAX by omega)
      rw [e1] at hlt
      have e2 : satAdd sr trs = sr + trs :=
        satAdd_lt_max (show satAdd sr trs < U128MAX by omega)
      rw [e2] at hlt
      rw [e0, e1, e2]
      have g1 : R.get acc ≤ R.sum := SMap.get_le_sum R acc
      have f1 : satAdd (R.get acc) sr = R.get acc + sr := satAdd_eq_of_le (by omega)
      have s1 := SMap.sum_set R acc (satAdd (R.get acc) sr)
      have g2 : T.get tr ≤ T.sum := SMap.get_le_sum T tr
      have f2 : satAdd (T.get tr) trs = T.get tr + trs := satAdd_eq_of_le (by omega)
      have s2 := SMap.sum_set T tr (satAdd (T.get tr) trs)
      omega
    | some acc2 =>
      simp only at hlt ⊢
      have e0 : satAdd tot (satAdd (satAdd sr trs) es) = tot + satAdd (satAdd sr trs) es :=
        satAdd_lt_max hlt
      rw [e0] at hlt
      have e1 : satAdd (satAdd sr trs) es = satAdd sr trs + es :=
        satAdd_lt_max (show satAdd (satAdd sr trs) es < U128MAX by omega)
      rw [e1] at hlt
      have e2 : satAdd sr trs = sr + trs :=
        satAdd_lt_max (show satAdd sr trs < U128MAX by omega)
      rw [e2] at hlt
      rw [e0, e1, e2]
      have g1 : R.get acc ≤ R.sum := SMap.get_le_sum R acc
      have f1 : satAdd (R.get acc) sr = R.get acc + sr := satAdd_eq_of_le (by omega)
      have s1 := SMap.sum_set R acc (satAdd (R.get acc) sr)
      have g2 : T.get tr ≤ T.sum := SMap.get_le_sum T tr
      have f2 : satAdd (T.get tr) trs = T.get tr + trs := satAdd_eq_of_le (by omega)
      have s2 := SMap.sum_set T tr (satAdd (T.get tr) trs)
      have g3 : (T.set tr (satAdd (T.get tr) trs)).get acc2 ≤
          (T.set tr (satAdd (T.get tr) trs)).sum :=
        SMap.get_le_sum (T.set tr (satAdd (T.get tr) trs)) acc2
      have f3 : satAdd ((T.set tr (satAdd (T.get tr) trs)).get acc2) es =
          (T.set tr (satAdd (T.get tr) trs)).get acc2 + es := satAdd_eq_of_le (by omega)
      have s3 := SMap.sum_set (T.set tr (satAdd (T.get tr) trs)) acc2
        (satAdd ((T.set tr (satAdd (T.get tr) trs)).get acc2) es)
      omega

theorem ptfCore_ok_inv {env : Env} {source trader asset_id amount : Nat}
    {price : Nat × Nat} {level : Level} {refAccount : Option Nat}
    {s : State} {r : Nat} {s' : State} (hI : Inv s)
    (h : ptfCore env source trader asset_id amount price level refAccount s = .ok (r, s'))
    (hlt : s'.totalShares < U128MAX) : Inv s' := by
  unfold ptfCore at h
  simp only at h
  split at h
  · split at h
    · exact Except.noConfusion h
    · rename_i s1 htr
      split at h
      · exact Except.noConfusion h
      · rename_i referrerShares hm1
        split at h
        · exact Except.noConfusion h
        · rename_i traderShares hm2
          split at h
          · exact Except.noConfusion h
          · rename_i extShares hm3
            cases h
            have hI1 : Inv s1 := Inv_of_sharesEq (transfer_ok_fields htr).1 hI
            have hsr : refAccount = none → referrerShares = 0 := by
              intro hrn
              rw [hrn] at hm1
              unfold guardedShares at hm1
              simp at hm1
              omega
            have hes : env.extAccount = none → extShares = 0 := by
              intro hrn
              rw [hrn] at hm3
              unfold guardedShares at hm3
              simp at hm3
              omega
            by_cases hcond : asset_id ≠ env.rewardAsset
            · rw [if_pos hcond] at hlt ⊢
              exact mintShares_inv s1 refAccount trader env.extAccount
                referrerShares traderShares extShares hI1 hsr hes hlt
            · rw [if_neg hcond] at hlt ⊢
              exact mintShares_inv s1 refAccount trader env.extAccount
                referrerShares traderShares extShares hI1 hsr hes hlt
  · exact Except.noConfusion h

theorem ptf_ok_inv {env : Env} {source trader asset_id amount : Nat} {s s' : State}
    {r : Nat} (hI : Inv s)
    (h : process_trade_fee env source trader asset_id amount s = .ok (r, s'))
    (hlt : s'.totalShares < U128MAX) : Inv s' := by
  unfold process_trade_fee at h
  simp only at h
  cases hp : env.getPrice env.rewardAsset asset_id with
  | none =>
    simp only [hp] at h
    cases h
    exact hI
  | some price =>
    simp only [hp] at h
    cases hla : s.linkedAccounts trader with
    | none =>
      simp only [hla] at h
      exact ptfCore_ok_inv hI h hlt
    | some acc =>
      simp only [hla] at h
      cases href : s.referrer acc with
      | none =>
        simp only [href] at h
        cases h
        exact hI
      | some p =>
        obtain ⟨lv, lvtot⟩ := p
        simp only [href] at h
        exact ptfCore_ok_inv hI h hlt

/-- C1 (amended): for every state satisfying the shares-ledger invariant
`total_shares = Σ referrer_shares + Σ trader_shares` (with a `u128`-valid
counter), every public operation preserves the invariant, except that
`process_trade_fee` mints with saturating arithmetic: for it, preservation
is guaranteed whenever the updated `total_shares` counter stays strictly
below `2^128 - 1` (no saturation). -/
theorem inv_preserved_of_no_saturation (env : Env) (op : Op) (s : State)
    (hI : Inv s) (hW : WFtotal s) (hN : NoSatOp env op s) : Inv (applyOp env op s) := by
  cases op with
  | processTradeFeeOp source trader asset_id amount =>
    simp only [NoSatOp, applyOp] at hN ⊢
    cases hc : process_trade_fee env source trader asset_id amount s with
    | error e =>
      simp only [hc]
      exact hI
    | ok p =>
      obtain ⟨r, s'⟩ := p
      simp only [hc] at hN ⊢
      exact ptf_ok_inv hI hc hN
  | claimRewardsOp who =>
    simp only [applyOp]
    cases hc : claim_rewards env who s with
    | error e =>
      simp only [hc]
      exact hI
    | ok s2 =>
      simp only [hc]
      unfold claim_rewards at hc
      cases hd : drainPending env s with
      | error e =>
        simp only [hd] at hc
        exact Except.noConfusion hc
      | ok s1 =>
        simp only [hd] at hc
        unfold drainPending at hd
        obtain ⟨hse, _, _, _⟩ := drainList_ok_fields env s.pendingConversions s s1 hd
        have hI1 : Inv s1 := Inv_of_sharesEq hse hI
        have hW1 : WFtotal s1 := by
          simp only [WFtotal] at hW ⊢
          rw [hse.2.2]
          exact hW
        exact claimCore_ok_inv hI1 hW1 hc
  | convertOp asset_id =>
    simp only [applyOp]
    cases hc : convert env asset_id s with
    | error e =>
      simp only [hc]
      exact hI
    | ok s2 =>
      simp only [hc]
      exact Inv_of_sharesEq (convert_ok_shares hc) hI
  | onIdleOp w =>
    simp only [applyOp]
    unfold on_idle
    simp only
    split
    · exact hI
    · exact Inv_of_sharesEq (onIdleLoop_fields env (s.pendingConversions.take _) s).1 hI
  | registerCodeOp who code =>
    simp only [applyOp]
    cases hc : register_code env who code s with
    | error e =>
      simp only [hc]
      exact hI
    | ok s2 =>
      simp only [hc]
      exact Inv_of_sharesEq (register_code_ok_shares hc) hI
  | linkCodeOp who code =>
    simp only [applyOp]
    cases hc : link_code env who code s with
    | error e =>
      simp only [hc]
      exact hI
    | ok s2 =>
      simp only [hc]
      exact Inv_of_sharesEq (link_code_ok_shares hc) hI
  | setRewardPercentageOp asset_id level rewards =>
    simp only [applyOp]
    cases hc : set_reward_percentage env asset_id level rewards s with
    | error e =>
      simp only [hc]
      exact hI
    | ok s2 =>
      simp only [hc]
      exact Inv_of_sharesEq (set_reward_percentage_ok_shares hc) hI

/-- C1 witness: the invariant preservation applied to a concrete trade fee of
1000 units of asset 5 on the empty shares ledger. -/
theorem inv_preserved_of_no_saturation_witness :
    Inv s0C1 ∧ WFtotal s0C1 ∧
    NoSatOp baseEnv (.processTradeFeeOp 50 60 5 1000) s0C1 ∧
    Inv (applyOp baseEnv (.processTradeFeeOp 50 60 5 1000) s0C1) :=
  ⟨by decide, by decide, by decide,
    inv_preserved_of_no_saturation baseEnv (.processTradeFeeOp 50 60 5 1000) s0C1
      (by decide) (by decide) (by decide)⟩

/-- C1 counterexample: two consecutive `2^127`-sized trade fees through
distinct traders.  After the first, the invariant holds and the counter is
within range; the second mint saturates `total_shares` at `2^128 - 1` while
the individual balances sum to `2^128`, so the invariant is broken: as
stated (preservation by every public operation with no saturation proviso)
the claim is false. -/
theorem total_shares_invariant_cex :
    Inv tradeA ∧ WFtotal tradeA ∧ ¬ Inv tradeB := by
  refine ⟨by decide, by decide, by decide⟩

/-- C5 (amended): calling the explicit convert operation for an asset of
which the reward pot holds a zero balance fails with the `ZeroAmount` error
and changes no state — it is rejected as an error, not treated as a benign
no-op. -/
theorem convert_zero_balance_err (env : Env) (asset_id : Nat) (s : State)
    (h : s.balances asset_id env.potAccount = 0) :
    convertCall env asset_id s = (s, some (.module .ZeroAmount)) := by
  unfold convertCall convert
  simp [h]

/-- C5 witness: the zero-balance convert error at a concrete input. -/
theorem convert_zero_balance_err_witness :
    zeroState.balances 5 baseEnv.potAccount = 0 ∧
    convertCall baseEnv 5 zeroState = (zeroState, some (.module .ZeroAmount)) :=
  ⟨rfl, convert_zero_balance_err baseEnv 5 zeroState rfl⟩

/-- C5 counterexample: with a zero pot balance of asset 5, the convert
extrinsic returns the `ZeroAmount` error and does not succeed, refuting the
claim that this case is a benign no-op rather than an error. -/
theorem convert_zero_balance_cex :
    zeroState.balances 5 baseEnv.potAccount = 0 ∧
    convert baseEnv 5 zeroState = .error (.module .ZeroAmount) ∧
    isOkE (convert baseEnv 5 zeroState) = false :=
  ⟨rfl, rfl, rfl⟩

/-- C8: when the price provider returns no price for the pair
(reward asset, traded asset), `process_trade_fee` returns zero successfully
and leaves the state completely unchanged — a silent no-op, not an error. -/
theorem trade_fee_no_price_noop (env : Env) (source trader asset_id amount : Nat)
    (s : State) (h : env.getPrice env.rewardAsset asset_id = none) :
    process_trade_fee env source trader asset_id amount s = .ok (0, s) := by
  unfold process_trade_fee
  simp [h]

/-- C8 witness: the silent no-op at a concrete priceless environment. -/
theorem trade_fee_no_price_noop_witness :
    envW8.getPrice envW8.rewardAsset 3 = none ∧
    process_trade_fee envW8 1 2 3 4 zeroState = .ok (0, zeroState) :=
  ⟨rfl, trade_fee_no_price_noop envW8 1 2 3 4 zeroState rfl⟩

/-- C3: during the claim-triggered drain, a pending asset whose conversion
fails with exactly one of the two negligible-amount error kinds is skipped —
the loop continues on the remaining assets with unchanged state, and the
asset is still pending in any successful drain result; any other conversion
error makes the entire `claim_rewards` call fail with that error and no state
change (atomic abort). -/
theorem claim_drain_error_spec (env : Env) (who a : Nat) (rest : List Nat)
    (s : State) (e : DispatchError)
    (hpend : s.pendingConversions = a :: rest)
    (herr : env.convertResult a (s.balances a env.potAccount) = .error e)
    (hnr : a ∉ rest) :
    (isNegligible e = true →
      drainList env (a :: rest) s = drainList env rest s ∧
      ∀ s', drainList env rest s = .ok s' → a ∈ s'.pendingConversions) ∧
    (isNegligible e = false → claimRewardsCall env who s = (s, some e)) := by
  constructor
  · intro hn
    constructor
    · unfold drainList
      simp only [herr]
      rw [if_pos hn]
      rw [drainList.eq_def]
    · intro s' hd
      refine drainList_pending_mono env rest s s' hd a ?_ hnr
      rw [hpend]
      exact List.mem_cons_self a rest
  · intro hn
    have hnn : ¬ (isNegligible e = true) := by
      rw [hn]
      exact Bool.false_ne_true
    unfold claimRewardsCall claim_rewards drainPending
    rw [hpend]
    unfold drainList
    simp only [herr, if_neg hnn]

/-- C3 witness: concrete drain behavior with the tolerated
minimum-trading-amount error on pending asset 4. -/
theorem claim_drain_error_spec_witness :
    sC3.pendingConversions = 4 :: [] ∧
    envC3.convertResult 4 (sC3.balances 4 envC3.potAccount) =
      .error (.module .ConversionMinTradingAmountNotReached) ∧
    (4 : Nat) ∉ ([] : List Nat) ∧
    ((isNegligible (.module .ConversionMinTradingAmountNotReached) = true →
        drainList envC3 (4 :: []) sC3 = drainList envC3 [] sC3 ∧
        ∀ s', drainList envC3 [] sC3 = .ok s' → 4 ∈ s'.pendingConversions) ∧
      (isNegligible (.module .ConversionMinTradingAmountNotReached) = false →
        claimRewardsCall envC3 1 sC3 =
          (sC3, some (.module .ConversionMinTradingAmountNotReached)))) :=
  ⟨rfl, rfl, by decide,
    claim_drain_error_spec envC3 1 4 [] sC3
      (.module .ConversionMinTradingAmountNotReached) rfl rfl (by decide)⟩

theorem increase_step (env : Env) (fuel : Nat) (l : Level) (amount : Nat) :
    Level.increase env fuel l amount =
      if l.is_max_level then some l
      else if (env.levelVolumeAndRewardPercentages l.next_level).1 ≤ amount then
        match fuel with
        | 0 => none
        | f + 1 => Level.increase env f l.next_level amount
      else some l := by
  conv_lhs => rw [Level.increase.eq_def]

theorem increase_none_never (env : Env) :
    ∀ fuel total, Level.increase env fuel Level.None total = none ∨
      Level.increase env fuel Level.None total = some Level.None := by
  intro fuel
  induction fuel with
  | zero =>
    intro total
    rw [increase_step, if_neg (show ¬ (Level.None.is_max_level = true) by decide)]
    by_cases h : (env.levelVolumeAndRewardPercentages Level.None.next_level).1 ≤ total
    · rw [if_pos h]
      exact Or.inl rfl
    · rw [if_neg h]
      exact Or.inr rfl
  | succ f ih =>
    intro total
    rw [increase_step, if_neg (show ¬ (Level.None.is_max_level = true) by decide)]
    by_cases h : (env.levelVolumeAndRewardPercentages Level.None.next_level).1 ≤ total
    · rw [if_pos h]
      exact ih total
    · rw [if_neg h]
      exact Or.inr rfl

/-- C7: the level-progression function keeps advancing while the cumulative
total meets the next tier's required volume, so one settlement can jump
multiple tiers; below-threshold totals stop at the current level; `Tier4`
maps to itself for every total; `None` never advances to any other level for
any total and fuel (in the source this branch recurses into itself — the
divergence is modelled by fuel exhaustion); and the settlement reports only
the final resulting level, in at most one LevelUp notification. -/
theorem level_increase_spec (env : Env) (l : Level) (total : Nat) (fuel : Nat) :
    (l.is_max_level = false →
      (env.levelVolumeAndRewardPercentages l.next_level).1 ≤ total →
      Level.increase env (fuel + 1) l total = Level.increase env fuel l.next_level total) ∧
    (l.is_max_level = false →
      ¬ (env.levelVolumeAndRewardPercentages l.next_level).1 ≤ total →
      Level.increase env fuel l total = some l) ∧
    Level.increase env fuel Level.Tier4 total = some Level.Tier4 ∧
    (Level.increase env fuel Level.None total = none ∨
      Level.increase env fuel Level.None total = some Level.None) ∧
    (∀ who rr s, (updateReferrer env who rr s).events = s.events ∨
      ∃ lv lvtot, s.referrer who = some (lv, lvtot) ∧
        (updateReferrer env who rr s).events = s.events ++
          [Event.levelUp who ((Level.increase env 5 lv (satAdd lvtot rr)).getD lv)]) := by
  refine ⟨?_, ?_, ?_, increase_none_never env fuel total, ?_⟩
  · intro h1 h2
    rw [increase_step]
    simp [h1, h2]
  · intro h1 h2
    rw [increase_step]
    simp [h1, h2]
  · rw [increase_step]
    simp [show Level.Tier4.is_max_level = true from rfl]
  · intro who rr s
    unfold updateReferrer
    cases h : s.referrer who with
    | none => exact Or.inl rfl
    | some p =>
      obtain ⟨lv, lvtot⟩ := p
      simp only
      split
      · exact Or.inr ⟨lv, lvtot, rfl, rfl⟩
      · exact Or.inl rfl

/-- C7 witness: with thresholds 100/1000/100000/1000000 a total of 1000
advances Tier0 by recursion, a total of 10 stops at Tier0, and Tier4 is a
fixed point. -/
theorem level_increase_spec_witness :
    Level.increase env7 5 Level.Tier0 1000 =
      Level.increase env7 4 (Level.next_level Level.Tier0) 1000 ∧
    Level.increase env7 4 Level.Tier0 10 = some Level.Tier0 ∧
    Level.increase env7 0 Level.Tier4 77 = some Level.Tier4 :=
  ⟨(level_increase_spec env7 .Tier0 1000 4).1 rfl (by decide),
   (level_increase_spec env7 .Tier0 10 4).2.1 rfl (by decide),
   (level_increase_spec env7 .Tier4 77 0).2.2.1⟩

/-- C6 (amended): the background drain attempts at most
floor((remaining_budget - one_read) / cost_per_conversion) conversions
regardless of queue size (assets beyond the cap stay pending untouched),
removes an asset from the pending set only when its conversion succeeds, and
consumes cap * cost + one_read: when no conversions fit it reports one_read
consumed (the budget for computing the cap), not zero. -/
theorem on_idle_budget_spec (env : Env) (remainingWeight : Weight) (s : State)
    (hc : 0 < env.convertWeight.refTime)
    (hr : env.dbOneRead.refTime ≤ U64MAX) (hp : env.dbOneRead.proofSize ≤ U64MAX) :
    ((on_idle env remainingWeight s).2 =
      (env.convertWeight.satMulScalar
        ((remainingWeight.satSub env.dbOneRead).refTime / env.convertWeight.refTime)).satAdd
        env.dbOneRead) ∧
    (∀ x, x ∈ s.pendingConversions →
      x ∉ s.pendingConversions.take
          ((remainingWeight.satSub env.dbOneRead).refTime / env.convertWeight.refTime) →
      x ∈ (on_idle env remainingWeight s).1.pendingConversions) ∧
    (∀ x, x ∈ s.pendingConversions →
      x ∉ (on_idle env remainingWeight s).1.pendingConversions →
      ∃ b out, env.convertResult x b = .ok out) ∧
    ((remainingWeight.satSub env.dbOneRead).refTime / env.convertWeight.refTime = 0 →
      (on_idle env remainingWeight s).2 = env.dbOneRead ∧
      (on_idle env remainingWeight s).1 = s) := by
  have hz : ¬ (env.convertWeight.isZero = true) := by
    simp only [Weight.isZero, decide_eq_true_eq]
    omega
  unfold on_idle
  simp only [if_neg hz]
  refine ⟨trivial, ?_, ?_, ?_⟩
  · intro x hx hnt
    exact onIdleLoop_pending_mono env _ s x hx hnt
  · intro x hx hnx
    exact onIdleLoop_removed_success env _ s x hx hnx
  · intro h0
    rw [h0]
    constructor
    · conv_rhs => rw [show env.dbOneRead =
        Weight.mk env.dbOneRead.refTime env.dbOneRead.proofSize from rfl]
      simp only [Weight.satMulScalar, Weight.satAdd, sat64, Weight.mk.injEq]
      constructor
      · omega
      · omega
    · rfl

/-- C6 witness: a concrete budget (ref-time 45) fitting two conversions over
the one pending asset. -/
theorem on_idle_budget_spec_witness :
    0 < baseEnv.convertWeight.refTime ∧
    baseEnv.dbOneRead.refTime ≤ U64MAX ∧
    baseEnv.dbOneRead.proofSize ≤ U64MAX ∧
    (((on_idle baseEnv ⟨45, 0⟩ sC3).2 =
      (baseEnv.convertWeight.satMulScalar
        ((Weight.satSub ⟨45, 0⟩ baseEnv.dbOneRead).refTime / baseEnv.convertWeight.refTime)).satAdd
        baseEnv.dbOneRead) ∧
    (∀ x, x ∈ sC3.pendingConversions →
      x ∉ sC3.pendingConversions.take
          ((Weight.satSub ⟨45, 0⟩ baseEnv.dbOneRead).refTime / baseEnv.convertWeight.refTime) →
      x ∈ (on_idle baseEnv ⟨45, 0⟩ sC3).1.pendingConversions) ∧
    (∀ x, x ∈ sC3.pendingConversions →
      x ∉ (on_idle baseEnv ⟨45, 0⟩ sC3).1.pendingConversions →
      ∃ b out, baseEnv.convertResult x b = .ok out) ∧
    ((Weight.satSub ⟨45, 0⟩ baseEnv.dbOneRead).refTime / baseEnv.convertWeight.refTime = 0 →
      (on_idle baseEnv ⟨45, 0⟩ sC3).2 = baseEnv.dbOneRead ∧
      (on_idle baseEnv ⟨45, 0⟩ sC3).1 = sC3)) :=
  ⟨by decide, by decide, by decide,
    on_idle_budget_spec baseEnv ⟨45, 0⟩ sC3 (by decide) (by decide) (by decide)⟩

/-- C6 counterexample: with one-read weight 25 and conversion weight 10, a
remaining budget of ref-time 5 fits zero conversions, yet on_idle reports
weight 25 (one read) consumed — not zero, refuting the claim's zero-budget
reporting. -/
theorem on_idle_budget_cex :
    (Weight.satSub ⟨5, 0⟩ baseEnv.dbOneRead).refTime / baseEnv.convertWeight.refTime = 0 ∧
    (on_idle baseEnv ⟨5, 0⟩ zeroState).2 = ⟨25, 0⟩ ∧
    (⟨25, 0⟩ : Weight) ≠ Weight.zero := by
  refine ⟨by decide, by decide, by decide⟩

/-- C9 (amended): a claim_rewards call by an account whose referrer and
trader shares are both zero, in a state where the claim-triggered drain
raises no hard conversion error, returns success with no notification
emitted, no change to the claimant's balances (the claimant is not the
protocol-owned pot), and the shares ledger unchanged; pot-internal
conversions from the drain may still occur. -/
theorem claim_zero_shares_spec (env : Env) (who : Nat) (s s1 : State)
    (hr : s.referrerShares.get who = 0)
    (ht : s.traderShares.get who = 0)
    (hd : drainPending env s = .ok s1)
    (hp : who ≠ env.potAccount) :
    ∃ s', claim_rewards env who s = .ok s' ∧
      s'.events = s.events ∧
      (∀ a, s'.balances a who = s.balances a who) ∧
      (∀ x, s'.referrerShares.get x = s.referrerShares.get x) ∧
      (∀ x, s'.traderShares.get x = s.traderShares.get x) ∧
      s'.totalShares = s.totalShares := by
  have hdl : drainList env s.pendingConversions s = .ok s1 := hd
  obtain ⟨⟨hsr, hst, hto⟩, hev, _, hbal⟩ :=
    drainList_ok_fields env s.pendingConversions s s1 hdl
  have hr1 : s1.referrerShares.get who = 0 := by rw [hsr]; exact hr
  have ht1 : s1.traderShares.get who = 0 := by rw [hst]; exact ht
  refine ⟨{ s1 with referrerShares := s1.referrerShares.set who 0, traderShares := s1.traderShares.set who 0 }, ?_, ?_, ?_, ?_, ?_, ?_⟩
  · unfold claim_rewards
    simp only [hd]
    unfold claimCore
    simp only
    have h00 : satAdd (s1.referrerShares.get who) (s1.traderShares.get who) = 0 := by
      rw [hr1, ht1]
      decide
    rw [if_pos h00]
  · rw [hev]
  · intro a
    exact hbal a who hp
  · intro x
    by_cases hxw : x = who
    · subst hxw
      rw [SMap.get_set_self]
      rw [hr]
    · rw [SMap.get_set_ne s1.referrerShares who 0 x hxw, hsr]
  · intro x
    by_cases hxw : x = who
    · subst hxw
      rw [SMap.get_set_self]
      rw [ht]
    · rw [SMap.get_set_ne s1.traderShares who 0 x hxw, hst]
  · exact hto

/-- C9 witness: a zero-shares claim with an empty pending set succeeds and
changes nothing for the claimant. -/
theorem claim_zero_shares_spec_witness :
    zeroState.referrerShares.get 7 = 0 ∧
    zeroState.traderShares.get 7 = 0 ∧
    drainPending baseEnv zeroState = .ok zeroState ∧
    (7 : Nat) ≠ baseEnv.potAccount ∧
    (∃ s', claim_rewards baseEnv 7 zeroState = .ok s' ∧
      s'.events = zeroState.events ∧
      (∀ a, s'.balances a 7 = zeroState.balances a 7) ∧
      (∀ x, s'.referrerShares.get x = zeroState.referrerShares.get x) ∧
      (∀ x, s'.traderShares.get x = zeroState.traderShares.get x) ∧
      s'.totalShares = zeroState.totalShares) :=
  ⟨rfl, rfl, rfl, by decide,
    claim_zero_shares_spec baseEnv 7 zeroState zeroState rfl rfl rfl (by decide)⟩

/-- C9 counterexample: claimant 7 has zero shares in both maps, but a pending
conversion of asset 3 hard-fails (an opaque conversion error), so the whole
claim_rewards call returns that error instead of success — refuting the claim
that a zero-shares claim always returns success. -/
theorem claim_zero_shares_cex :
    sC9.referrerShares.get 7 = 0 ∧
    sC9.traderShares.get 7 = 0 ∧
    claimRewardsCall envC9 7 sC9 = (sC9, some (.token 9)) :=
  ⟨rfl, rfl, rfl⟩

/-- C10: referral codes are case-insensitive at the public interface: after a
successful registration of a code by some account, linking with any case
variant of that code (same bytes up to ASCII letter case) from a
not-yet-linked, different account succeeds and links the signer to the
registering account. -/
theorem code_case_insensitive (env : Env) (who who2 : Nat) (code v : List Nat)
    (s s1 : State)
    (hreg : register_code env who code s = .ok s1)
    (hvar : v.map asciiUpper = code.map asciiUpper)
    (hnl : s1.linkedAccounts who2 = none)
    (hne : who2 ≠ who) :
    ∃ s2, link_code env who2 v s1 = .ok s2 ∧ s2.linkedAccounts who2 = some who := by
  have hnv : normalize_code env v = normalize_code env code := by
    unfold normalize_code
    rw [hvar]
  have hcode : s1.referralCodes (normalize_code env code) = some who := by
    unfold register_code at hreg
    split at hreg
    · exact Except.noConfusion hreg
    split at hreg
    · exact Except.noConfusion hreg
    split at hreg
    · exact Except.noConfusion hreg
    cases hc : s.referralCodes (normalize_code env code) with
    | some acc =>
      simp only [hc] at hreg
      exact Except.noConfusion hreg
    | none =>
      simp only [hc] at hreg
      cases htr : transfer s env.registrationFeeAsset who env.registrationFeeBeneficiary
          env.registrationFeeAmount true with
      | error e =>
        simp only [htr] at hreg
        exact Except.noConfusion hreg
      | ok st =>
        simp only [htr] at hreg
        cases hreg
        simp
  unfold link_code
  simp only [hnv, hcode]
  have h1 : ¬ ((s1.linkedAccounts who2).isSome = true) := by
    rw [hnl]
    simp
  rw [if_neg h1, if_neg hne]
  refine ⟨_, rfl, ?_⟩
  simp

/-- C10 witness: register lower-case "ab" (bytes 97 98), then link its case
variant "Ab" (bytes 65 98) from account 2: the link succeeds and points to
the registrant, account 1. -/
theorem code_case_insensitive_witness :
    register_code baseEnv 1 [97, 98] sW10 = .ok regResW10 ∧
    [65, 98].map asciiUpper = [97, 98].map asciiUpper ∧
    regResW10.linkedAccounts 2 = none ∧
    (2 : Nat) ≠ 1 ∧
    (∃ s2, link_code baseEnv 2 [65, 98] regResW10 = .ok s2 ∧
      s2.linkedAccounts 2 = some 1) :=
  ⟨rfl, by decide, rfl, by decide,
    code_case_insensitive baseEnv 1 2 [97, 98] [65, 98] sW10 regResW10 rfl (by decide)
      rfl (by decide)⟩

theorem convertShares_some {a b c r : Nat} (h : convertShares a b c = some r) :
    c ≠ 0 ∧ r = a * b / c := by
  unfold convertShares at h
  split at h
  · exact Option.noConfusion h
  · split at h
    · cases h
      refine ⟨by assumption, rfl⟩
    · exact Option.noConfusion h

theorem checkedAdd_some {a b t : Nat} (h : checkedAdd a b = some t) : t = a + b := by
  unfold checkedAdd at h
  split at h
  · cases h
    rfl
  · exact Option.noConfusion h

/-- C2: for every successful claim by a claimant with nonzero shares, the
referrer and trader payout parts each equal
floor(shares * distributable / issuance) where distributable is the
post-drain pot balance of the reward asset minus the reserved seed floor and
issuance is total_shares before the claim; the summed payout does not exceed
the distributable balance; and afterwards total_shares equals the issuance
minus the claimant's burned referrer-plus-trader shares.  The payout parts
are those reported in the Claimed notification. -/
theorem claim_rewards_payout_spec (env : Env) (who : Nat) (s s1 s' : State)
    (hd : drainPending env s = .ok s1)
    (hok : claim_rewards env who s = .ok s')
    (hwf : s.referrerShares.get who + s.traderShares.get who ≤ U128MAX)
    (hnz : s.referrerShares.get who + s.traderShares.get who ≠ 0) :
    (∃ evs, s'.events = evs ++
      [Event.claimed who
        (s.referrerShares.get who *
          (s1.balances env.rewardAsset env.potAccount - env.seedNativeAmount) / s.totalShares)
        (s.traderShares.get who *
          (s1.balances env.rewardAsset env.potAccount - env.seedNativeAmount) / s.totalShares)]) ∧
    (s.referrerShares.get who *
        (s1.balances env.rewardAsset env.potAccount - env.seedNativeAmount) / s.totalShares +
      s.traderShares.get who *
        (s1.balances env.rewardAsset env.potAccount - env.seedNativeAmount) / s.totalShares ≤
      s1.balances env.rewardAsset env.potAccount - env.seedNativeAmount) ∧
    s'.totalShares = s.totalShares -
      (s.referrerShares.get who + s.traderShares.get who) := by
  have hdl : drainList env s.pendingConversions s = .ok s1 := hd
  obtain ⟨⟨hsr, hst, hto⟩, hev, _, _⟩ := drainList_ok_fields env s.pendingConversions s s1 hdl
  unfold claim_rewards at hok
  simp only [hd] at hok
  unfold claimCore at hok
  simp only at hok
  rw [hsr, hst, hto] at hok
  have hz : ¬ (satAdd (s.referrerShares.get who) (s.traderShares.get who) = 0) := by
    rw [satAdd_eq_zero_iff]
    omega
  rw [if_neg hz] at hok
  cases hcr : convertShares (s.referrerShares.get who)
      (s1.balances env.rewardAsset env.potAccount - env.seedNativeAmount) s.totalShares with
  | none =>
    simp only [hcr] at hok
    exact Except.noConfusion hok
  | some rr =>
    simp only [hcr] at hok
    cases hct : convertShares (s.traderShares.get who)
        (s1.balances env.rewardAsset env.potAccount - env.seedNativeAmount) s.totalShares with
    | none =>
      simp only [hct] at hok
      exact Except.noConfusion hok
    | some tt =>
      simp only [hct] at hok
      cases hca : checkedAdd rr tt with
      | none =>
        simp only [hca] at hok
        exact Except.noConfusion hok
      | some tot =>
        simp only [hca] at hok
        split at hok
        case' _ hle =>
          split at hok
          case' _ => exact Except.noConfusion hok
          case' _ s3 htr =>
            cases hok
            obtain ⟨hiz, hrr⟩ := convertShares_some hcr
            obtain ⟨_, htt⟩ := convertShares_some hct
            have htot := checkedAdd_some hca
            obtain ⟨⟨hb1, hb2, hb3⟩, _, _, _⟩ := transfer_ok_fields htr
            refine ⟨⟨_, by rw [← hrr, ← htt]⟩, ?_, ?_⟩
            · rw [← hrr, ← htt]
              omega
            · simp only
              rw [(updateReferrer_fields env who rr _).1.2.2]
              simp only
              rw [hb3]
              simp only
              rw [satAdd_eq_of_le hwf]
        case' _ => exact Except.noConfusion hok

/-- C2 witness: a concrete successful claim: claimant 1 holds all 100 shares
of the issuance as referrer shares, the pot holds 1000 units of the reward
asset with no seed floor, so the payout is the full 1000 and total shares
drop to zero. -/
theorem claim_rewards_payout_spec_witness :
    drainPending baseEnv sW2 = .ok sW2 ∧
    claim_rewards baseEnv 1 sW2 = .ok claimResW2 ∧
    sW2.referrerShares.get 1 + sW2.traderShares.get 1 ≤ U128MAX ∧
    sW2.referrerShares.get 1 + sW2.traderShares.get 1 ≠ 0 ∧
    ((∃ evs, claimResW2.events = evs ++
      [Event.claimed 1
        (sW2.referrerShares.get 1 *
          (sW2.balances baseEnv.rewardAsset baseEnv.potAccount - baseEnv.seedNativeAmount) /
          sW2.totalShares)
        (sW2.traderShares.get 1 *
          (sW2.balances baseEnv.rewardAsset baseEnv.potAccount - baseEnv.seedNativeAmount) /
          sW2.totalShares)]) ∧
    (sW2.referrerShares.get 1 *
        (sW2.balances baseEnv.rewardAsset baseEnv.potAccount - baseEnv.seedNativeAmount) /
        sW2.totalShares +
      sW2.traderShares.get 1 *
        (sW2.balances baseEnv.rewardAsset baseEnv.potAccount - baseEnv.seedNativeAmount) /
        sW2.totalShares ≤
      sW2.balances baseEnv.rewardAsset baseEnv.potAccount - baseEnv.seedNativeAmount) ∧
    claimResW2.totalShares = sW2.totalShares -
      (sW2.referrerShares.get 1 + sW2.traderShares.get 1)) :=
  ⟨rfl, rfl, by decide, by decide,
    claim_rewards_payout_spec baseEnv 1 sW2 sW2 claimResW2 rfl rfl (by decide) (by decide)⟩

theorem guardedReward_none (p a : Nat) : guardedReward none p a = 0 := rfl

theorem guardedShares_none (r n d : Nat) : guardedShares none r n d = some 0 := rfl

/-- C4 (amended): in the reward math path of process_trade_fee, an overflow
of the wide price multiplication producing shares surfaces as the arithmetic
overflow error and fails the call (here on the unlinked-trader,
no-external-account path, after a successful fee transfer); the fee-cut
computation of total_taken and the total_shares update, by contrast, use
saturating arithmetic and do not fail on overflow. -/
theorem trade_fee_overflow_spec (env : Env) (source trader asset_id amount : Nat)
    (s s1 : State) (n d : Nat)
    (hp : env.getPrice env.rewardAsset asset_id = some (n, d))
    (hla : s.linkedAccounts trader = none)
    (hea : env.extAccount = none)
    (hta : satAdd (satAdd 0 (mulFloor ((s.assetRewards asset_id Level.None).getD
        (env.levelVolumeAndRewardPercentages Level.None).2).trader amount)) 0 ≤ amount)
    (htr : transfer s asset_id source env.potAccount
        (satAdd (satAdd 0 (mulFloor ((s.assetRewards asset_id Level.None).getD
          (env.levelVolumeAndRewardPercentages Level.None).2).trader amount)) 0) true = .ok s1)
    (hmbr : mulByRationalDown (mulFloor ((s.assetRewards asset_id Level.None).getD
        (env.levelVolumeAndRewardPercentages Level.None).2).trader amount) n d = none) :
    process_trade_fee env source trader asset_id amount s = .error .arithmeticOverflow := by
  unfold process_trade_fee
  simp only [hp, hla]
  unfold ptfCore
  simp only [hea, guardedReward_none, guardedShares_none]
  rw [if_pos hta]
  simp only [htr, hmbr]

/-- C4 witness: with price numerator 2^128 - 1 and denominator 1, a trader
cut of 2 units overflows the wide multiplication and the call fails with the
overflow error. -/
theorem trade_fee_overflow_spec_witness :
    envW4.getPrice envW4.rewardAsset 5 = some (U128MAX, 1) ∧
    sW4.linkedAccounts 11 = none ∧
    envW4.extAccount = none ∧
    satAdd (satAdd 0 (mulFloor ((sW4.assetRewards 5 Level.None).getD
        (envW4.levelVolumeAndRewardPercentages Level.None).2).trader 2)) 0 ≤ 2 ∧
    transfer sW4 5 10 envW4.potAccount
        (satAdd (satAdd 0 (mulFloor ((sW4.assetRewards 5 Level.None).getD
          (envW4.levelVolumeAndRewardPercentages Level.None).2).trader 2)) 0) true = .ok sW4t ∧
    mulByRationalDown (mulFloor ((sW4.assetRewards 5 Level.None).getD
        (envW4.levelVolumeAndRewardPercentages Level.None).2).trader 2) U128MAX 1 = none ∧
    process_trade_fee envW4 10 11 5 2 sW4 = .error .arithmeticOverflow :=
  ⟨rfl, rfl, rfl, by decide, rfl, by decide,
    trade_fee_overflow_spec envW4 10 11 5 2 sW4 sW4t U128MAX 1 rfl rfl rfl
      (by decide) rfl (by decide)⟩

/-- C4 counterexample: with total_shares already at the u128 cap, a trade
that mints 100 trader shares succeeds — the total_shares update silently
saturates at the cap instead of surfacing an overflow error, refuting the
claim that every overflow in this path fails the call and that nothing is
silently saturated. -/
theorem trade_fee_saturation_cex :
    sC4.totalShares = U128MAX ∧
    isOkE ptfC4 = true ∧
    resC4.traderShares.get 11 = sC4.traderShares.get 11 + 100 ∧
    resC4.totalShares = U128MAX := by
  refine ⟨by decide, by decide, by decide, by decide⟩

end Referrals
